import Mathlib

/-!
# Formal model of the Dataroma portfolio scraper

A shallow embedding of `dataroma_scraper.py`.  Text is modelled as `List Char`
(`get_text(" ", strip=True)` results are taken as given text fields of the
markup model).  The regular expressions of the source are embedded as
deterministic matchers; greediness of `\s*`, `(?:ember)?`, `,?`, `[:\s]+` and
`[A-Z]{1,5}\b` is exact here because in each pattern the construct is followed
by a token disjoint from the repeated class (for `{1,5}\b`, every shorter
backtrack ends at a word character, so the maximal-run criterion is
equivalent).  Case mappings model `str.lower` / `str.upper` and
`re.IGNORECASE` on the ASCII range, which covers every literal appearing in
the source patterns.
-/

namespace Dataroma

/-- Character list of a string literal. -/
def str (s : String) : List Char := s.data

/-- The ASCII fragment of the whitespace class `\s` of Python's `re`
(space, tab, newline, carriage return, vertical tab, form feed). -/
def isWS (c : Char) : Bool :=
  c == ' ' || c == '\t' || c == '\n' || c == '\r' || c.toNat == 11 || c.toNat == 12

/-- ASCII lower-casing of a character, modelling `str.lower` on the
characters relevant to the source's patterns. -/
def pyLower (c : Char) : Char :=
  if c.toNat = 65 then 'a' else if c.toNat = 66 then 'b'
  else if c.toNat = 67 then 'c' else if c.toNat = 68 then 'd'
  else if c.toNat = 69 then 'e' else if c.toNat = 70 then 'f'
  else if c.toNat = 71 then 'g' else if c.toNat = 72 then 'h'
  else if c.toNat = 73 then 'i' else if c.toNat = 74 then 'j'
  else if c.toNat = 75 then 'k' else if c.toNat = 76 then 'l'
  else if c.toNat = 77 then 'm' else if c.toNat = 78 then 'n'
  else if c.toNat = 79 then 'o' else if c.toNat = 80 then 'p'
  else if c.toNat = 81 then 'q' else if c.toNat = 82 then 'r'
  else if c.toNat = 83 then 's' else if c.toNat = 84 then 't'
  else if c.toNat = 85 then 'u' else if c.toNat = 86 then 'v'
  else if c.toNat = 87 then 'w' else if c.toNat = 88 then 'x'
  else if c.toNat = 89 then 'y' else if c.toNat = 90 then 'z'
  else c

/-- ASCII upper-casing of a character, modelling `str.upper` on the
characters relevant to the source's patterns. -/
def pyUpper (c : Char) : Char :=
  if c.toNat = 97 then 'A' else if c.toNat = 98 then 'B'
  else if c.toNat = 99 then 'C' else if c.toNat = 100 then 'D'
  else if c.toNat = 101 then 'E' else if c.toNat = 102 then 'F'
  else if c.toNat = 103 then 'G' else if c.toNat = 104 then 'H'
  else if c.toNat = 105 then 'I' else if c.toNat = 106 then 'J'
  else if c.toNat = 107 then 'K' else if c.toNat = 108 then 'L'
  else if c.toNat = 109 then 'M' else if c.toNat = 110 then 'N'
  else if c.toNat = 111 then 'O' else if c.toNat = 112 then 'P'
  else if c.toNat = 113 then 'Q' else if c.toNat = 114 then 'R'
  else if c.toNat = 115 then 'S' else if c.toNat = 116 then 'T'
  else if c.toNat = 117 then 'U' else if c.toNat = 118 then 'V'
  else if c.toNat = 119 then 'W' else if c.toNat = 120 then 'X'
  else if c.toNat = 121 then 'Y' else if c.toNat = 122 then 'Z'
  else c

/-- Strip leading and trailing whitespace, modelling `str.strip()`. -/
def pyStrip (l : List Char) : List Char :=
  ((l.dropWhile isWS).reverse.dropWhile isWS).reverse

/-- Match a literal token at the start of the text; on success return the
remaining text. -/
def litP : List Char → List Char → Option (List Char)
  | [], t => some t
  | _ :: _, [] => none
  | p :: ps, c :: cs => if p == c then litP ps cs else none

/-- Scan every start position of the text with a matcher, as `re.search`
does. -/
def searchFrom (pr : List Char → Bool) : List Char → Bool
  | [] => pr []
  | c :: cs => pr (c :: cs) || searchFrom pr cs

/-- Substring test, modelling Python's `needle in hay`. -/
def substr (needle hay : List Char) : Bool :=
  searchFrom (fun t => (litP needle t).isSome) hay

/-- Match one character of a class at the start of the text. -/
def clsP (p : Char → Bool) : List Char → Option (List Char)
  | [] => none
  | c :: cs => if p c then some cs else none

/-- Greedy optional literal, modelling `(?:tok)?` where the following token
is disjoint from the start of `tok`. -/
def optLit (pat : List Char) (t : List Char) : List Char :=
  match litP pat t with
  | some r => r
  | none => t

/-- Ordered alternation of two literals, modelling `(?:tok1|tok2)`. -/
def altLit (tok1 tok2 : List Char) (t : List Char) : Option (List Char) :=
  match litP tok1 t with
  | some r => some r
  | none => litP tok2 t

/-- Match `.*` followed by a matcher: some split of the text whose skipped
part contains no newline satisfies the continuation. -/
def dotStarThen (pr : List Char → Bool) : List Char → Bool
  | [] => pr []
  | c :: cs => pr (c :: cs) || (!(c == '\n') && dotStarThen pr cs)

/-- The character class `[/\-]`. -/
def slashDash (c : Char) : Bool := c == '/' || c == '-'

/-- The character class `[:\s]` (ASCII fragment). -/
def colonWS (c : Char) : Bool := c == ':' || isWS c

/-- Matcher for `Q4\s*2025` (on lower-cased text) at the start of the text. -/
def matchQ4 (t : List Char) : Bool :=
  match litP ['q', '4'] t with
  | none => false
  | some r => (litP ['2', '0', '2', '5'] (r.dropWhile isWS)).isSome

/-- Matcher for `(?:31|30)\s*Dec(?:ember)?\s*2025` (lower-cased text). -/
def matchDec1 (t : List Char) : Bool :=
  match altLit ['3', '1'] ['3', '0'] t with
  | none => false
  | some r =>
    match litP ['d', 'e', 'c'] (r.dropWhile isWS) with
    | none => false
    | some r2 =>
      (litP ['2', '0', '2', '5'] ((optLit ['e', 'm', 'b', 'e', 'r'] r2).dropWhile isWS)).isSome

/-- Matcher for `Dec(?:ember)?\s*(?:31|30),?\s*2025` (lower-cased text). -/
def matchDec2 (t : List Char) : Bool :=
  match litP ['d', 'e', 'c'] t with
  | none => false
  | some r =>
    match altLit ['3', '1'] ['3', '0'] ((optLit ['e', 'm', 'b', 'e', 'r'] r).dropWhile isWS) with
    | none => false
    | some r2 =>
      (litP ['2', '0', '2', '5'] ((optLit [','] r2).dropWhile isWS)).isSome

/-- Matcher for `12[/\-]31[/\-]2025`. -/
def matchMDY (t : List Char) : Bool :=
  match litP ['1', '2'] t with
  | none => false
  | some r =>
    match clsP slashDash r with
    | none => false
    | some r2 =>
      match litP ['3', '1'] r2 with
      | none => false
      | some r3 =>
        match clsP slashDash r3 with
        | none => false
        | some r4 => (litP ['2', '0', '2', '5'] r4).isSome

/-- Matcher for `2025[/\-]12[/\-]31`. -/
def matchYMD (t : List Char) : Bool :=
  match litP ['2', '0', '2', '5'] t with
  | none => false
  | some r =>
    match clsP slashDash r with
    | none => false
    | some r2 =>
      match litP ['1', '2'] r2 with
      | none => false
      | some r3 =>
        match clsP slashDash r3 with
        | none => false
        | some r4 => (litP ['3', '1'] r4).isSome

/-- Continuation `2025[/\-]12` of the sixth pattern. -/
def ymTarget (u : List Char) : Bool :=
  match litP ['2', '0', '2', '5'] u with
  | none => false
  | some v =>
    match clsP slashDash v with
    | none => false
    | some w => (litP ['1', '2'] w).isSome

/-- Matcher for `Portfolio\s+date[:\s]+.*2025[/\-]12` (lower-cased text). -/
def matchPortDate (t : List Char) : Bool :=
  match litP ['p', 'o', 'r', 't', 'f', 'o', 'l', 'i', 'o'] t with
  | none => false
  | some r =>
    match clsP isWS r with
    | none => false
    | some r1 =>
      match litP ['d', 'a', 't', 'e'] (r1.dropWhile isWS) with
      | none => false
      | some r2 =>
        match clsP colonWS r2 with
        | none => false
        | some r3 => dotStarThen ymTarget (r3.dropWhile colonWS)

/-- The period filter `is_q4_2025`: the page's visible text matches one of
six `re.IGNORECASE` patterns anywhere (`re.search`). -/
def is_q4_2025 (pageText : List Char) : Bool :=
  let low := pageText.map pyLower
  searchFrom matchQ4 low || searchFrom matchDec1 low || searchFrom matchDec2 low ||
    searchFrom matchMDY low || searchFrom matchYMD low || searchFrom matchPortDate low

/-- The class `[A-Z.]` under `re.IGNORECASE`: ASCII letters of either case
and the period. -/
def symClassChar (c : Char) : Bool :=
  (65 ≤ c.toNat && c.toNat ≤ 90) || (97 ≤ c.toNat && c.toNat ≤ 122) || c == '.'

/-- The class `[A-Z]` (case-sensitive). -/
def upperChar (c : Char) : Bool := 65 ≤ c.toNat && c.toNat ≤ 90

/-- The word-character class `\w` (ASCII fragment), for `\b`. -/
def wordChar (c : Char) : Bool :=
  (65 ≤ c.toNat && c.toNat ≤ 90) || (97 ≤ c.toNat && c.toNat ≤ 122) ||
    (48 ≤ c.toNat && c.toNat ≤ 57) || c == '_'

/-- Characters allowed in an emitted ticker: uppercase ASCII letters and the
period. -/
def tickerChar (c : Char) : Bool := (65 ≤ c.toNat && c.toNat ≤ 90) || c == '.'

/-- The character class `[-–]` (hyphen or en dash). -/
def dashChar (c : Char) : Bool := c == '-' || c == '–'

/-- Whether the text starts with a word character (the `\b` test). -/
def headIsWordChar : List Char → Bool
  | [] => false
  | c :: _ => wordChar c

/-- Match `[?&]sym=([A-Z.]+)` with `re.IGNORECASE` at the start of the text,
returning the upper-cased capture. -/
def symMatchAt (t : List Char) : Option (List Char) :=
  match t with
  | [] => none
  | c :: rest =>
    if c == '?' || c == '&' then
      if (rest.take 4).map pyLower == ['s', 'y', 'm', '='] then
        let run := (rest.drop 4).takeWhile symClassChar
        if run.isEmpty then none else some (run.map pyUpper)
      else none
    else none

/-- Leftmost match of `[?&]sym=([A-Z.]+)` (IGNORECASE) in an href, the
capture upper-cased — the ticker extracted from a stock hyperlink. -/
def extractSym : List Char → Option (List Char)
  | [] => none
  | c :: rest =>
    match symMatchAt (c :: rest) with
    | some tk => some tk
    | none => extractSym rest

/-- Match `[-–]\s*([A-Z]{1,5})\b` at the start of the text.  The greedy
quantifier with the trailing word boundary is equivalent to: the maximal
uppercase run after the dash has length 1–5 and is not followed by a word
character. -/
def dashTickerAt (t : List Char) : Option (List Char) :=
  match t with
  | [] => none
  | c :: rest =>
    if dashChar c then
      let r := rest.dropWhile isWS
      let run := r.takeWhile upperChar
      if 1 ≤ run.length && run.length ≤ 5 && !headIsWordChar (r.dropWhile upperChar) then
        some run
      else none
    else none

/-- Leftmost match of `[-–]\s*([A-Z]{1,5})\b` in the stock text — the ticker
recovered from a trailing dash-separated token. -/
def extractDashTicker : List Char → Option (List Char)
  | [] => none
  | c :: rest =>
    match dashTickerAt (c :: rest) with
    | some tk => some tk
    | none => extractDashTicker rest

/-- A hyperlink inside a table cell: its visible text and href attribute. -/
structure LinkInfo where
  text : List Char
  href : List Char
deriving DecidableEq

/-- A table cell: whether it is a `th`, its visible text, and its first
embedded hyperlink if any. -/
structure Cell where
  isTh : Bool
  text : List Char
  link : Option LinkInfo
deriving DecidableEq

/-- A table of the page: id attribute, class tokens, and its rows of cells
in document order. -/
structure HTable where
  idAttr : Option (List Char)
  classes : List (List Char)
  rows : List (List Cell)
deriving DecidableEq

/-- An anchor tag of the page: href attribute and visible text. -/
structure Anchor where
  href : List Char
  text : List Char
deriving DecidableEq

/-- A fetched page: its visible text, its anchors and its tables in document
order. -/
structure Page where
  text : List Char
  anchors : List Anchor
  tables : List HTable
deriving DecidableEq

/-- A manager reference collected from the listing page. -/
structure ManagerRef where
  name : List Char
  url : List Char
deriving DecidableEq

/-- One extracted holding row. -/
structure HoldingRecord where
  manager : List Char
  stock : List Char
  ticker : List Char
  recentActivity : List Char
  portfolioPercent : List Char
  reportedPrice : List Char
deriving DecidableEq

/-- The per-table column map from semantic field to column index. -/
structure ColMap where
  stock : Option Nat
  activity : Option Nat
  portfolio_pct : Option Nat
  price : Option Nat
deriving DecidableEq

/-- One step of the header keyword matching (the `elif` chain of the
source), on an already lower-cased header text. -/
def updateColMap (m : ColMap) (i : Nat) (h : List Char) : ColMap :=
  if substr (str "stock") h then { m with stock := some i }
  else if substr (str "activity") h then { m with activity := some i }
  else if substr (str "portfolio") h && substr (str "%") h then { m with portfolio_pct := some i }
  else if substr (str "reported") h || (substr (str "price") h && substr (str "reported") h) then
    { m with price := some i }
  else if substr (str "price") h && m.price.isNone then { m with price := some i }
  else m

/-- Fold the header cells into the column map, tracking the column index. -/
def mkColMapAux : ColMap → Nat → List (List Char) → ColMap
  | m, _, [] => m
  | m, i, h :: hs => mkColMapAux (updateColMap m i h) (i + 1) hs

/-- The column map of a list of lower-cased header texts. -/
def mkColMap (hs : List (List Char)) : ColMap :=
  mkColMapAux ⟨none, none, none, none⟩ 0 hs

/-- The `td` cells of a data row (`row.find_all("td")`). -/
def tdCells (row : List Cell) : List Cell := row.filter (fun c => !c.isTh)

/-- The text of the cell at an index, empty when out of range. -/
def cellTextAt (cells : List Cell) (i : Nat) : List Char :=
  match cells[i]? with
  | some c => c.text
  | none => []

/-- The Recent Activity text of a row: the mapped (or default 4) column. -/
def rowActivityText (cm : ColMap) (row : List Cell) : List Char :=
  cellTextAt (tdCells row) (cm.activity.getD 4)

/-- Stock text and link-derived ticker of a row: the link's text and the
`sym=` capture when a hyperlink is present, else the cell text with an empty
ticker; both empty when the stock column is out of range. -/
def stockAndTicker (cm : ColMap) (cells : List Cell) : List Char × List Char :=
  match cells[cm.stock.getD 1]? with
  | none => ([], [])
  | some cell =>
    match cell.link with
    | none => (cell.text, [])
    | some lnk => (lnk.text, (extractSym lnk.href).getD [])

/-- Process one data row: skip rows with fewer than 3 `td` cells, recover a
ticker from the stock text when the link yields none, and keep the row only
when the lower-cased activity text contains "buy" or "add". -/
def processRow (cm : ColMap) (mgr : List Char) (row : List Cell) : Option HoldingRecord :=
  let cells := tdCells row
  if cells.length < 3 then none
  else
    let st := stockAndTicker cm cells
    let ticker := if st.2.isEmpty then (extractDashTicker st.1).getD [] else st.2
    let al := (rowActivityText cm row).map pyLower
    if substr (str "buy") al || substr (str "add") al then
      some { manager := mgr, stock := pyStrip st.1, ticker := ticker,
             recentActivity := rowActivityText cm row,
             portfolioPercent := cellTextAt cells (cm.portfolio_pct.getD 2),
             reportedPrice := cellTextAt cells (cm.price.getD 5) }
    else none

/-- Lower-cased texts of the header row's cells (`th` and `td` alike). -/
def headerKeys (headerRow : List Cell) : List (List Char) :=
  headerRow.map (fun c => c.text.map pyLower)

/-- Parse a located table: first row is the header, remaining rows are data
rows. -/
def parseHoldingsTable (rows : List (List Cell)) (mgr : List Char) : List HoldingRecord :=
  match rows with
  | [] => []
  | headerRow :: dataRows =>
    dataRows.filterMap (processRow (mkColMap (headerKeys headerRow)) mgr)

/-- The leading text of a table, modelling `get_text(" ", strip=True)` as
the space-joined cell texts. -/
def tableText (t : HTable) : List Char :=
  List.intercalate (str " ") (t.rows.foldr (fun row acc => row.map Cell.text ++ acc) [])

/-- Locate the holdings table: by id `grid`, else by class `holdings`, else
the first table whose leading text mentions both `Stock` and `Activity`. -/
def findTable (p : Page) : Option HTable :=
  match p.tables.find? (fun t => t.idAttr == some (str "grid")) with
  | some t => some t
  | none =>
    match p.tables.find? (fun t => t.classes.contains (str "holdings")) with
    | some t => some t
    | none =>
      p.tables.find? (fun t =>
        substr (str "Stock") ((tableText t).take 200) &&
          substr (str "Activity") ((tableText t).take 200))

/-- The table extractor `parse_holdings`: locate the table and parse it; no
table yields no records. -/
def parse_holdings (p : Page) (mgr : List Char) : List HoldingRecord :=
  match findTable p with
  | none => []
  | some t => parseHoldingsTable t.rows mgr

/-- The fixed base origin. -/
def BASE_URL : List Char := str "https://www.dataroma.com"

/-- The fixed listing page URL. -/
def MANAGERS_URL : List Char := BASE_URL ++ str "/m/managers.php"

/-- The detail-link pattern of the listing page selector. -/
def mgrPat : List Char := str "holdings.php?m="

/-- Resolve an href against the base origin (`BASE_URL + href` when the href
starts with a slash). -/
def resolveUrl (href : List Char) : List Char :=
  if href.head? == some '/' then BASE_URL ++ href else href

/-- The candidate manager list before deduplication: anchors whose href
contains the detail pattern, with non-empty href and non-empty stripped
text. -/
def rawManagers (anchors : List Anchor) : List ManagerRef :=
  (anchors.filter (fun a => substr mgrPat a.href)).filterMap (fun a =>
    if a.href.isEmpty || (pyStrip a.text).isEmpty then none
    else some ⟨pyStrip a.text, resolveUrl a.href⟩)

/-- First-seen deduplication by url with an explicit seen set. -/
def dedupRefs : List ManagerRef → List (List Char) → List ManagerRef
  | [], _ => []
  | m :: ms, seen =>
    if m.url ∈ seen then dedupRefs ms seen
    else m :: dedupRefs ms (m.url :: seen)

/-- The index collector `get_manager_links` on the listing page's anchors. -/
def get_manager_links (anchors : List Anchor) : List ManagerRef :=
  dedupRefs (rawManagers anchors) []

/-- Whether an anchor survives the collector's filters (detail pattern,
non-empty href, non-empty stripped text). -/
def isValidMgrAnchor (a : Anchor) : Bool :=
  substr mgrPat a.href && !a.href.isEmpty && !(pyStrip a.text).isEmpty

/-- The resolved URLs of the surviving anchors, in document order. -/
def candidateUrls (anchors : List Anchor) : List (List Char) :=
  (anchors.filter isValidMgrAnchor).map (fun a => resolveUrl a.href)

/-- First-seen deduplication of a key list with an explicit seen set. -/
def firstSeenAux : List (List Char) → List (List Char) → List (List Char)
  | [], _ => []
  | u :: us, seen =>
    if u ∈ seen then firstSeenAux us seen
    else u :: firstSeenAux us (u :: seen)

/-- First-seen deduplication of a key list. -/
def firstSeen (us : List (List Char)) : List (List Char) := firstSeenAux us []

/-- The end-of-run summary counts. -/
structure Summary where
  q4Count : Nat
  skipCount : Nat
  totalRecords : Nat
deriving DecidableEq

/-- The tabular export artifact. -/
structure ExportFile where
  sheetName : List Char
  columns : List (List Char)
  rows : List HoldingRecord
deriving DecidableEq

/-- The outcome of a run: a fatal exit at the index stage, or a finished run
with its summary and optional export. -/
inductive RunResult where
  | fatalNoIndex : RunResult
  | fatalNoManagers : RunResult
  | finished : Summary → Option ExportFile → RunResult
deriving DecidableEq

/-- A run outcome paired with the total time slept. -/
structure RunOutcome where
  result : RunResult
  elapsed : Nat
deriving DecidableEq

/-- The loop state of the orchestrator: accumulated records and counters,
plus the time slept so far and the index into the delay stream. -/
structure LoopState where
  records : List HoldingRecord
  q4Count : Nat
  skipCount : Nat
  elapsed : Nat
  tick : Nat
deriving DecidableEq

/-- One iteration of the orchestrator's loop over an entity: sleep, fetch,
period-filter, extract.  A failed fetch leaves every counter unchanged. -/
def stepEntity (fetch : List Char → Option Page) (delays : Nat → Nat)
    (s : LoopState) (mgr : ManagerRef) : LoopState :=
  let s1 : LoopState := { s with elapsed := s.elapsed + delays s.tick, tick := s.tick + 1 }
  match fetch mgr.url with
  | none => s1
  | some page =>
    if is_q4_2025 page.text then
      { s1 with records := s1.records ++ parse_holdings page mgr.name,
                q4Count := s1.q4Count + 1 }
    else
      { s1 with skipCount := s1.skipCount + 1 }

/-- The orchestrator's loop over the manager list. -/
def runLoop (fetch : List Char → Option Page) (delays : Nat → Nat)
    (s : LoopState) : List ManagerRef → LoopState
  | [] => s
  | m :: ms => runLoop fetch delays (stepEntity fetch delays s m) ms

/-- The record keys in dict insertion order (the DataFrame's columns). -/
def recordKeys : List (List Char) :=
  [str "Manager", str "Stock", str "Ticker", str "Recent Activity",
   str "Portfolio %", str "Reported Price"]

/-- The fixed column order requested for the export. -/
def fixedColumnOrder : List (List Char) :=
  [str "Manager", str "Stock", str "Ticker", str "Recent Activity",
   str "Portfolio %", str "Reported Price"]

/-- The columns actually exported: the fixed order filtered to the columns
present in the DataFrame. -/
def exportColumns : List (List Char) :=
  fixedColumnOrder.filter (fun c => recordKeys.contains c)

/-- The whole run: fetch the listing page, collect managers, loop, then
export once when the accumulated records are non-empty. -/
def mainRun (fetch : List Char → Option Page) (delays : Nat → Nat) : RunOutcome :=
  match fetch MANAGERS_URL with
  | none => ⟨RunResult.fatalNoIndex, 0⟩
  | some p =>
    let managers := get_manager_links p.anchors
    if managers.isEmpty then ⟨RunResult.fatalNoManagers, 0⟩
    else
      let fin := runLoop fetch delays ⟨[], 0, 0, 0, 0⟩ managers
      let output : Option ExportFile :=
        if fin.records.isEmpty then none
        else some ⟨str "Q4 2025 Buys", exportColumns, fin.records⟩
      ⟨RunResult.finished ⟨fin.q4Count, fin.skipCount, fin.records.length⟩ output, fin.elapsed⟩

/-- A header cell. -/
def thCell (s : String) : Cell := ⟨true, str s, none⟩

/-- A data cell without a hyperlink. -/
def tdCell (s : String) : Cell := ⟨false, str s, none⟩

/-- The header row of the specification's example table. -/
def demoHeaderRow : List Cell :=
  [thCell "Stock", thCell "Recent Activity", thCell "Portfolio %", thCell "Reported Price"]

/-- The single data row of the specification's example table. -/
def demoDataRow : List Cell :=
  [tdCell "Apple Inc - AAPL", tdCell "Buy", tdCell "5.2%", tdCell "$150.00"]

/-- The specification's example table, carrying the expected id. -/
def demoTable : HTable := ⟨some (str "grid"), [], [demoHeaderRow, demoDataRow]⟩

/-- A page holding only the example table. -/
def demoPage : Page := ⟨str "Period: Q4 2025", [], [demoTable]⟩

/-- The record the example table should produce. -/
def demoRecord : HoldingRecord :=
  ⟨str "Value Fund", str "Apple Inc - AAPL", str "AAPL", str "Buy",
   str "5.2%", str "$150.00"⟩

/-- The column map of the example table's header. -/
def demoColMap : ColMap := mkColMap (headerKeys demoHeaderRow)

/-- A data row whose activity is `Sell`. -/
def sellRow : List Cell := [tdCell "X Corp", tdCell "Sell", tdCell "1.0%"]

/-- A data row whose activity is `aDd` (mixed case). -/
def addRow : List Cell := [tdCell "Y Corp", tdCell "aDd", tdCell "2.0%"]

/-- A data row with fewer than three cells. -/
def shortRow : List Cell := [tdCell "Z Corp", tdCell "Buy"]

/-- An anchor matching the detail pattern whose visible text is empty. -/
def emptyNameAnchor : Anchor := ⟨str "/m/holdings.php?m=77", []⟩

/-- A listing page exposing a single manager anchor. -/
def idxPageOneMgr : Page := ⟨[], [⟨str "/m/holdings.php?m=AB", str "Alpha"⟩], []⟩

/-- The resolved detail URL of the single manager. -/
def demoDetailUrl : List Char := BASE_URL ++ str "/m/holdings.php?m=AB"

/-- A world in which the listing page loads but the manager's detail page
fails to fetch. -/
def fetchFailWorld (u : List Char) : Option Page :=
  if u = MANAGERS_URL then some idxPageOneMgr else none

/-- A detail page passing the period filter with one qualifying row. -/
def demoDetailPage : Page := ⟨str "Period: Q4 2025", [], [demoTable]⟩

/-- A world in which the listing page and the manager's detail page both
load. -/
def fetchGoodWorld (u : List Char) : Option Page :=
  if u = MANAGERS_URL then some idxPageOneMgr
  else if u = demoDetailUrl then some demoDetailPage
  else none

/-- A header text (already lower-cased) that reaches the price branches of
the `elif` chain: it matches none of the stock, activity, portfolio-percent
keywords. -/
def hdrReachesPrice (h : List Char) : Bool :=
  !(substr (str "stock") h) && !(substr (str "activity") h) &&
    !(substr (str "portfolio") h && substr (str "%") h)

/-- A header that the chain's fourth branch accepts: it reaches the price
branches and contains `reported`. -/
def hdrReported (h : List Char) : Bool :=
  hdrReachesPrice h && substr (str "reported") h

/-- A generic price header: it reaches the price branches, contains `price`
and does not contain `reported`. -/
def hdrGenericPrice (h : List Char) : Bool :=
  hdrReachesPrice h && !(substr (str "reported") h) && substr (str "price") h

/-- Anchors of a listing page with a duplicated manager link and an
unrelated link. -/
def demoAnchors : List Anchor :=
  [⟨str "/m/holdings.php?m=AB", str "Alpha"⟩,
   ⟨str "/m/holdings.php?m=AB", str "Alpha again"⟩,
   ⟨str "/m/home.php", str "Home"⟩]

end Dataroma

namespace Dataroma

/-- A literal token matches its own concatenation with any tail. -/
theorem litP_append (p t : List Char) : litP p (p ++ t) = some t := by
  induction p with
  | nil => rfl
  | cons c cs ih => simp [litP, ih]

/-- A scan succeeds on any text ending in a start position accepted by the
matcher. -/
theorem searchFrom_append (pr : List Char → Bool) (a x : List Char)
    (h : pr x = true) : searchFrom pr (a ++ x) = true := by
  induction a with
  | nil =>
    cases x with
    | nil => simpa [searchFrom] using h
    | cons c cs => simp [searchFrom, h]
  | cons c cs ih => simp [searchFrom, ih]

theorem matchQ4_lit (b : List Char) :
    matchQ4 (['q', '4', ' ', '2', '0', '2', '5'] ++ b) = true := by
  simp [matchQ4, litP, List.dropWhile_cons, isWS]

theorem matchDec1_lit (b : List Char) :
    matchDec1 (['3', '1', ' ', 'd', 'e', 'c', ' ', '2', '0', '2', '5'] ++ b) = true := by
  simp [matchDec1, altLit, optLit, litP, List.dropWhile_cons, isWS]

theorem matchDec2_lit (b : List Char) :
    matchDec2 (['d', 'e', 'c', 'e', 'm', 'b', 'e', 'r', ' ', '3', '1', ',', ' ',
      '2', '0', '2', '5'] ++ b) = true := by
  simp [matchDec2, altLit, optLit, litP, List.dropWhile_cons, isWS]

theorem matchMDY_lit (b : List Char) :
    matchMDY (['1', '2', '/', '3', '1', '/', '2', '0', '2', '5'] ++ b) = true := by
  simp [matchMDY, clsP, slashDash, litP]

theorem matchYMD_lit (b : List Char) :
    matchYMD (['2', '0', '2', '5', '-', '1', '2', '-', '3', '1'] ++ b) = true := by
  simp [matchYMD, clsP, slashDash, litP]

theorem is_q4_2025_of_Q4 (l : List Char) (h : searchFrom matchQ4 (l.map pyLower) = true) :
    is_q4_2025 l = true := by
  simp [is_q4_2025, h]

theorem is_q4_2025_of_Dec1 (l : List Char) (h : searchFrom matchDec1 (l.map pyLower) = true) :
    is_q4_2025 l = true := by
  simp [is_q4_2025, h]

theorem is_q4_2025_of_Dec2 (l : List Char) (h : searchFrom matchDec2 (l.map pyLower) = true) :
    is_q4_2025 l = true := by
  simp [is_q4_2025, h]

theorem is_q4_2025_of_MDY (l : List Char) (h : searchFrom matchMDY (l.map pyLower) = true) :
    is_q4_2025 l = true := by
  simp [is_q4_2025, h]

theorem is_q4_2025_of_YMD (l : List Char) (h : searchFrom matchYMD (l.map pyLower) = true) :
    is_q4_2025 l = true := by
  simp [is_q4_2025, h]

/-- C2: the period filter accepts any page text containing one of the five
target-period spellings "Q4 2025", "31 Dec 2025", "December 31, 2025",
"12/31/2025", "2025-12-31", and rejects a page text that is exactly
"Q3 2025" or exactly "12/31/2024". -/
theorem c2_period_patterns :
    (∀ a b : List Char, is_q4_2025 (a ++ str "Q4 2025" ++ b) = true) ∧
    (∀ a b : List Char, is_q4_2025 (a ++ str "31 Dec 2025" ++ b) = true) ∧
    (∀ a b : List Char, is_q4_2025 (a ++ str "December 31, 2025" ++ b) = true) ∧
    (∀ a b : List Char, is_q4_2025 (a ++ str "12/31/2025" ++ b) = true) ∧
    (∀ a b : List Char, is_q4_2025 (a ++ str "2025-12-31" ++ b) = true) ∧
    is_q4_2025 (str "Q3 2025") = false ∧
    is_q4_2025 (str "12/31/2024") = false := by
  refine ⟨?_, ?_, ?_, ?_, ?_, by decide, by decide⟩
  · intro a b
    apply is_q4_2025_of_Q4
    have e : (str "Q4 2025").map pyLower = ['q', '4', ' ', '2', '0', '2', '5'] := by decide
    rw [List.append_assoc, List.map_append, List.map_append, e]
    exact searchFrom_append _ _ _ (matchQ4_lit (b.map pyLower))
  · intro a b
    apply is_q4_2025_of_Dec1
    have e : (str "31 Dec 2025").map pyLower
        = ['3', '1', ' ', 'd', 'e', 'c', ' ', '2', '0', '2', '5'] := by decide
    rw [List.append_assoc, List.map_append, List.map_append, e]
    exact searchFrom_append _ _ _ (matchDec1_lit (b.map pyLower))
  · intro a b
    apply is_q4_2025_of_Dec2
    have e : (str "December 31, 2025").map pyLower
        = ['d', 'e', 'c', 'e', 'm', 'b', 'e', 'r', ' ', '3', '1', ',', ' ',
           '2', '0', '2', '5'] := by decide
    rw [List.append_assoc, List.map_append, List.map_append, e]
    exact searchFrom_append _ _ _ (matchDec2_lit (b.map pyLower))
  · intro a b
    apply is_q4_2025_of_MDY
    have e : (str "12/31/2025").map pyLower
        = ['1', '2', '/', '3', '1', '/', '2', '0', '2', '5'] := by decide
    rw [List.append_assoc, List.map_append, List.map_append, e]
    exact searchFrom_append _ _ _ (matchMDY_lit (b.map pyLower))
  · intro a b
    apply is_q4_2025_of_YMD
    have e : (str "2025-12-31").map pyLower
        = ['2', '0', '2', '5', '-', '1', '2', '-', '3', '1'] := by decide
    rw [List.append_assoc, List.map_append, List.map_append, e]
    exact searchFrom_append _ _ _ (matchYMD_lit (b.map pyLower))

/-- A successful row extraction characterizes the emitted record's fields
and the guards passed. -/
theorem processRow_eq_some {cm : ColMap} {mgr : List Char} {row : List Cell}
    {r : HoldingRecord} (h : processRow cm mgr row = some r) :
    3 ≤ (tdCells row).length ∧
    (substr (str "buy") ((rowActivityText cm row).map pyLower) ||
      substr (str "add") ((rowActivityText cm row).map pyLower)) = true ∧
    r = { manager := mgr,
          stock := pyStrip (stockAndTicker cm (tdCells row)).1,
          ticker := if (stockAndTicker cm (tdCells row)).2.isEmpty then
              (extractDashTicker (stockAndTicker cm (tdCells row)).1).getD []
            else (stockAndTicker cm (tdCells row)).2,
          recentActivity := rowActivityText cm row,
          portfolioPercent := cellTextAt (tdCells row) (cm.portfolio_pct.getD 2),
          reportedPrice := cellTextAt (tdCells row) (cm.price.getD 5) } := by
  simp only [processRow] at h
  split at h
  · exact absurd h (by simp)
  · next hlen =>
    split at h
    · next hcond => exact ⟨by omega, hcond, (Option.some.inj h).symm⟩
    · exact absurd h (by simp)

/-- Every record of `parse_holdings` comes from some data row via
`processRow`. -/
theorem mem_parse_holdings {p : Page} {mgr : List Char} {r : HoldingRecord}
    (h : r ∈ parse_holdings p mgr) :
    ∃ cm row, processRow cm mgr row = some r := by
  simp only [parse_holdings] at h
  split at h
  · simp at h
  · simp only [parseHoldingsTable] at h
    split at h
    · simp at h
    · rw [List.mem_filterMap] at h
      obtain ⟨row, -, hr⟩ := h
      exact ⟨_, row, hr⟩

/-- C1: every record emitted by the table extractor has a Recent Activity
field whose lower-casing contains "buy" or "add"; a row whose activity cell
text contains neither yields no record; a row with at least three cells
whose activity text contains one of them is not excluded by the activity
filter. -/
theorem c1_activity_filter :
    (∀ (p : Page) (mgr : List Char) (r : HoldingRecord), r ∈ parse_holdings p mgr →
      (substr (str "buy") (r.recentActivity.map pyLower) ||
        substr (str "add") (r.recentActivity.map pyLower)) = true) ∧
    (∀ (cm : ColMap) (mgr : List Char) (row : List Cell),
      (substr (str "buy") ((rowActivityText cm row).map pyLower) ||
        substr (str "add") ((rowActivityText cm row).map pyLower)) = false →
      processRow cm mgr row = none) ∧
    (∀ (cm : ColMap) (mgr : List Char) (row : List Cell),
      3 ≤ (tdCells row).length →
      (substr (str "buy") ((rowActivityText cm row).map pyLower) ||
        substr (str "add") ((rowActivityText cm row).map pyLower)) = true →
      (processRow cm mgr row).isSome = true) := by
  refine ⟨?_, ?_, ?_⟩
  · intro p mgr r h
    obtain ⟨cm, row, hr⟩ := mem_parse_holdings h
    obtain ⟨-, hcond, heq⟩ := processRow_eq_some hr
    rw [heq]
    exact hcond
  · intro cm mgr row hcond
    simp only [processRow]
    by_cases hlen : (tdCells row).length < 3
    · rw [if_pos hlen]
    · rw [if_neg hlen, if_neg (by simp [hcond])]
  · intro cm mgr row hlen hcond
    simp only [processRow]
    rw [if_neg (by omega), if_pos hcond]
    rfl

/-- C3: on a table whose header row is [Stock, Recent Activity,
Portfolio %, Reported Price] and whose single data row is
["Apple Inc - AAPL", "Buy", "5.2%", "$150.00"], the extractor emits exactly
one record with Ticker "AAPL" and Portfolio % "5.2%". -/
theorem c3_single_row_extraction :
    parse_holdings demoPage (str "Value Fund") =
      [{ manager := str "Value Fund", stock := str "Apple Inc - AAPL",
         ticker := str "AAPL", recentActivity := str "Buy",
         portfolioPercent := str "5.2%", reportedPrice := str "$150.00" }] := by
  decide

/-- A row with fewer than three td cells is skipped. -/
theorem processRow_short (cm : ColMap) (mgr : List Char) (row : List Cell)
    (h : (tdCells row).length < 3) : processRow cm mgr row = none := by
  simp only [processRow]
  rw [if_pos h]

/-- C8: a data row with fewer than three td cells contributes no record,
removing such a row does not change the extraction of the remaining rows,
and the header row is never emitted (the record count is bounded by the
number of data rows). -/
theorem c8_short_row_skipped :
    (∀ (cm : ColMap) (mgr : List Char) (row : List Cell),
      (tdCells row).length < 3 → processRow cm mgr row = none) ∧
    (∀ (hdr bad : List Cell) (pre post : List (List Cell)) (mgr : List Char),
      (tdCells bad).length < 3 →
      parseHoldingsTable (hdr :: (pre ++ bad :: post)) mgr =
        parseHoldingsTable (hdr :: (pre ++ post)) mgr) ∧
    (∀ (hdr : List Cell) (rows : List (List Cell)) (mgr : List Char),
      (parseHoldingsTable (hdr :: rows) mgr).length ≤ rows.length) := by
  refine ⟨processRow_short, ?_, ?_⟩
  · intro hdr bad pre post mgr h
    simp only [parseHoldingsTable]
    rw [List.filterMap_append, List.filterMap_append,
      List.filterMap_cons, processRow_short _ _ _ h]
  · intro hdr rows mgr
    simp only [parseHoldingsTable]
    exact List.length_filterMap_le _ _

/-- Upper-casing a character of the `[A-Z.]` IGNORECASE class yields an
uppercase letter or a period. -/
theorem pyUpper_tickerChar (c : Char) (h : symClassChar c = true) :
    tickerChar (pyUpper c) = true := by
  unfold symClassChar at h
  simp only [Bool.or_eq_true, Bool.and_eq_true, decide_eq_true_eq, beq_iff_eq] at h
  rcases h with ⟨h1, h2⟩ | ⟨h1, h2⟩ | h
  · have e : pyUpper c = c := by
      unfold pyUpper
      repeat rw [if_neg (by omega)]
    rw [e]
    unfold tickerChar
    simp only [Bool.or_eq_true, Bool.and_eq_true, decide_eq_true_eq]
    exact Or.inl ⟨h1, h2⟩
  · have hcase : c.toNat = 97 ∨ c.toNat = 98 ∨ c.toNat = 99 ∨ c.toNat = 100 ∨
        c.toNat = 101 ∨ c.toNat = 102 ∨ c.toNat = 103 ∨ c.toNat = 104 ∨
        c.toNat = 105 ∨ c.toNat = 106 ∨ c.toNat = 107 ∨ c.toNat = 108 ∨
        c.toNat = 109 ∨ c.toNat = 110 ∨ c.toNat = 111 ∨ c.toNat = 112 ∨
        c.toNat = 113 ∨ c.toNat = 114 ∨ c.toNat = 115 ∨ c.toNat = 116 ∨
        c.toNat = 117 ∨ c.toNat = 118 ∨ c.toNat = 119 ∨ c.toNat = 120 ∨
        c.toNat = 121 ∨ c.toNat = 122 := by omega
    rcases hcase with e | e | e | e | e | e | e | e | e | e | e | e | e | e |
      e | e | e | e | e | e | e | e | e | e | e | e <;>
      simp [pyUpper, tickerChar, e]
  · decide

/-- An uppercase letter is a ticker character. -/
theorem upperChar_tickerChar (c : Char) (h : upperChar c = true) :
    tickerChar c = true := by
  unfold upperChar at h
  unfold tickerChar
  simp only [Bool.or_eq_true, Bool.and_eq_true, decide_eq_true_eq] at h ⊢
  exact Or.inl h

/-- A capture of the `sym=` pattern consists of ticker characters. -/
theorem symMatchAt_chars {t tk : List Char} (h : symMatchAt t = some tk) :
    tk.all tickerChar = true := by
  cases t with
  | nil => simp [symMatchAt] at h
  | cons c rest =>
    simp only [symMatchAt] at h
    split at h
    · split at h
      · split at h
        · exact absurd h (by simp)
        · rw [List.all_eq_true]
          intro x hx
          rw [← Option.some.inj h] at hx
          rw [List.mem_map] at hx
          obtain ⟨y, hy, rfl⟩ := hx
          exact pyUpper_tickerChar y (List.mem_takeWhile_imp hy)
      · exact absurd h (by simp)
    · exact absurd h (by simp)

/-- A ticker extracted from an href consists of ticker characters. -/
theorem extractSym_chars (href : List Char) :
    ∀ {tk : List Char}, extractSym href = some tk → tk.all tickerChar = true := by
  induction href with
  | nil => intro tk h; simp [extractSym] at h
  | cons c rest ih =>
    intro tk h
    rw [extractSym] at h
    cases hs : symMatchAt (c :: rest) with
    | some tk2 =>
      rw [hs] at h
      exact Option.some.inj h ▸ symMatchAt_chars hs
    | none =>
      rw [hs] at h
      exact ih h

/-- A capture of the dash-ticker pattern consists of ticker characters. -/
theorem dashTickerAt_chars {t tk : List Char} (h : dashTickerAt t = some tk) :
    tk.all tickerChar = true := by
  cases t with
  | nil => simp [dashTickerAt] at h
  | cons c rest =>
    simp only [dashTickerAt] at h
    split at h
    · split at h
      · rw [List.all_eq_true]
        intro x hx
        rw [← Option.some.inj h] at hx
        exact upperChar_tickerChar x (List.mem_takeWhile_imp hx)
      · exact absurd h (by simp)
    · exact absurd h (by simp)

/-- A ticker recovered from the stock text consists of ticker characters. -/
theorem extractDashTicker_chars (l : List Char) :
    ∀ {tk : List Char}, extractDashTicker l = some tk → tk.all tickerChar = true := by
  induction l with
  | nil => intro tk h; simp [extractDashTicker] at h
  | cons c rest ih =>
    intro tk h
    rw [extractDashTicker] at h
    cases hs : dashTickerAt (c :: rest) with
    | some tk2 =>
      rw [hs] at h
      exact Option.some.inj h ▸ dashTickerAt_chars hs
    | none =>
      rw [hs] at h
      exact ih h

/-- The link-derived ticker of a row consists of ticker characters. -/
theorem stockAndTicker_snd_chars (cm : ColMap) (cells : List Cell) :
    (stockAndTicker cm cells).2.all tickerChar = true := by
  unfold stockAndTicker
  split
  · simp
  · split
    · simp
    · cases hx : extractSym _ with
      | none => simp [hx]
      | some tk => simpa [hx] using extractSym_chars _ hx

/-- C10: in every emitted record the Ticker field is empty or consists
solely of uppercase ASCII letters and periods. -/
theorem c10_ticker_charset (p : Page) (mgr : List Char) (r : HoldingRecord)
    (h : r ∈ parse_holdings p mgr) : r.ticker.all tickerChar = true := by
  obtain ⟨cm, row, hr⟩ := mem_parse_holdings h
  obtain ⟨-, -, heq⟩ := processRow_eq_some hr
  rw [heq]
  dsimp only
  by_cases he : (stockAndTicker cm (tdCells row)).2.isEmpty = true
  · rw [if_pos he]
    cases hd : extractDashTicker (stockAndTicker cm (tdCells row)).1 with
    | none => rfl
    | some tk => simpa using extractDashTicker_chars _ hd
  · rw [if_neg he]
    exact stockAndTicker_snd_chars cm (tdCells row)

/-- Folding one more header at the end applies one update at the next
index. -/
theorem mkColMapAux_append (hs : List (List Char)) :
    ∀ (m : ColMap) (i : Nat) (h : List Char),
      mkColMapAux m i (hs ++ [h]) = updateColMap (mkColMapAux m i hs) (i + hs.length) h := by
  induction hs with
  | nil => intro m i h; simp [mkColMapAux]
  | cons h0 hs ih =>
    intro m i h
    have e : i + (h0 :: hs).length = (i + 1) + hs.length := by
      simp [List.length_cons]
      omega
    rw [List.cons_append, mkColMapAux, mkColMapAux, ih, e]

/-- An update never changes the price column except to the current index,
and then only for a header containing `reported` or `price`. -/
theorem updateColMap_price_cases (m : ColMap) (i : Nat) (h : List Char) :
    (updateColMap m i h).price = m.price ∨
      ((updateColMap m i h).price = some i ∧
        (substr (str "reported") h || substr (str "price") h) = true) := by
  unfold updateColMap
  split_ifs with hb1 hb2 hb3 hb4 hb5
  · exact Or.inl rfl
  · exact Or.inl rfl
  · exact Or.inl rfl
  · refine Or.inr ⟨rfl, ?_⟩
    rcases Bool.or_eq_true_iff.mp hb4 with hr | hpr
    · simp [hr]
    · simp [Bool.and_eq_true_iff.mp hpr]
  · refine Or.inr ⟨rfl, ?_⟩
    simp [(Bool.and_eq_true_iff.mp hb5).1]
  · exact Or.inl rfl

/-- A header accepted by the fourth branch sets the price column to the
current index. -/
theorem updateColMap_price_reported (m : ColMap) (i : Nat) (h : List Char)
    (hrep : hdrReported h = true) : (updateColMap m i h).price = some i := by
  unfold hdrReported hdrReachesPrice at hrep
  simp only [Bool.and_eq_true, Bool.not_eq_true'] at hrep
  obtain ⟨⟨⟨hs, ha⟩, hp⟩, hr⟩ := hrep
  unfold updateColMap
  rw [if_neg (by simp [hs]), if_neg (by simp [ha]), if_neg (by simp [hp]),
    if_pos (by simp [hr])]

/-- A header without `reported` never overwrites an assigned price column. -/
theorem updateColMap_price_keep (m : ColMap) (i : Nat) (h : List Char)
    (hsome : m.price.isSome = true) (hrep : substr (str "reported") h = false) :
    (updateColMap m i h).price = m.price := by
  unfold updateColMap
  split_ifs with hb1 hb2 hb3 hb4 hb5
  · rfl
  · rfl
  · rfl
  · rw [hrep] at hb4
    simp at hb4
  · exfalso
    have := (Bool.and_eq_true_iff.mp hb5).2
    rw [Option.isNone_iff_eq_none] at this
    rw [this] at hsome
    simp at hsome
  · rfl

/-- Any assigned price column originates from a header containing
`reported` or `price` at that position (or was assigned before the fold). -/
theorem mkColMapAux_price_origin (hs : List (List Char)) :
    ∀ (m : ColMap) (i j : Nat), (mkColMapAux m i hs).price = some j →
      m.price = some j ∨ ∃ k h, hs[k]? = some h ∧ j = i + k ∧
        (substr (str "reported") h || substr (str "price") h) = true := by
  induction hs with
  | nil => intro m i j hj; exact Or.inl hj
  | cons h0 hs ih =>
    intro m i j hj
    rw [mkColMapAux] at hj
    rcases ih (updateColMap m i h0) (i + 1) j hj with hm | ⟨k, h, hk, hj2, hc⟩
    · rcases updateColMap_price_cases m i h0 with he | ⟨he, hc0⟩
      · rw [he] at hm
        exact Or.inl hm
      · rw [he] at hm
        have hij : i = j := Option.some.inj hm
        exact Or.inr ⟨0, h0, by simp, by omega, hc0⟩
    · exact Or.inr ⟨k + 1, h, by simpa using hk, by omega, hc⟩

/-- C6 counterexample: the header "reported" (which does not contain
"price") is mapped to the price field, refuting "maps to the price field
only if its text contains price". -/
theorem c6_counterexample :
    (mkColMap [str "reported"]).price = some 0 ∧
      substr (str "price") (str "reported") = false := by
  decide

/-- C6 amended: a header maps to the price field only if it contains
`reported` or `price`; a header reaching the price branches and containing
`reported` (in particular one containing both `reported` and `price`)
always overwrites the price assignment with its own index; a header without
`reported` never overwrites an already-assigned price column. -/
theorem c6_price_mapping :
    (∀ (hs : List (List Char)) (j : Nat), (mkColMap hs).price = some j →
      ∃ h, hs[j]? = some h ∧
        (substr (str "reported") h || substr (str "price") h) = true) ∧
    (∀ (hs : List (List Char)) (h : List Char), hdrReported h = true →
      (mkColMap (hs ++ [h])).price = some hs.length) ∧
    (∀ (hs : List (List Char)) (h : List Char), (mkColMap hs).price.isSome = true →
      substr (str "reported") h = false →
      (mkColMap (hs ++ [h])).price = (mkColMap hs).price) := by
  refine ⟨?_, ?_, ?_⟩
  · intro hs j hj
    rcases mkColMapAux_price_origin hs _ 0 j hj with hm | ⟨k, h, hk, hj2, hc⟩
    · simp at hm
    · refine ⟨h, ?_, hc⟩
      rwa [show j = k by omega]
  · intro hs h hrep
    unfold mkColMap
    rw [mkColMapAux_append, updateColMap_price_reported _ _ _ hrep]
    simp
  · intro hs h hsome hrep
    unfold mkColMap
    rw [mkColMapAux_append]
    exact updateColMap_price_keep _ _ _ hsome hrep

/-- The urls of the candidate managers are exactly the resolved urls of
the surviving anchors, in order. -/
theorem rawManagers_map_url (anchors : List Anchor) :
    (rawManagers anchors).map ManagerRef.url = candidateUrls anchors := by
  induction anchors with
  | nil => rfl
  | cons a as ih =>
    unfold rawManagers candidateUrls at ih ⊢
    cases hp : substr mgrPat a.href with
    | false =>
      have hv : isValidMgrAnchor a = false := by
        unfold isValidMgrAnchor
        simp [hp]
      simp only [List.filter_cons, hp, hv, Bool.false_eq_true, if_false]
      exact ih
    | true =>
      cases hh : a.href.isEmpty with
      | true =>
        have hv : isValidMgrAnchor a = false := by
          unfold isValidMgrAnchor
          simp [hh]
        simp only [List.filter_cons, hp, hv, if_true, Bool.false_eq_true, if_false,
          List.filterMap_cons, hh, Bool.true_or, if_pos]
        exact ih
      | false =>
        cases hn : (pyStrip a.text).isEmpty with
        | true =>
          have hv : isValidMgrAnchor a = false := by
            unfold isValidMgrAnchor
            simp [hn]
          simp only [List.filter_cons, hp, hv, if_true, Bool.false_eq_true, if_false,
            List.filterMap_cons, hh, hn, Bool.or_true, if_pos]
          exact ih
        | false =>
          have hv : isValidMgrAnchor a = true := by
            unfold isValidMgrAnchor
            simp [hp, hh, hn]
          simp only [List.filter_cons, hp, hv, if_true, List.filterMap_cons, hh, hn,
            Bool.or_self, Bool.false_eq_true, if_false, List.map_cons]
          rw [ih]

/-- Deduplication commutes with taking urls. -/
theorem dedupRefs_map_url (ms : List ManagerRef) :
    ∀ seen : List (List Char),
      (dedupRefs ms seen).map ManagerRef.url = firstSeenAux (ms.map ManagerRef.url) seen := by
  induction ms with
  | nil => intro seen; rfl
  | cons m ms ih =>
    intro seen
    by_cases h : m.url ∈ seen
    · simp [dedupRefs, firstSeenAux, h, ih]
    · simp [dedupRefs, firstSeenAux, h, ih]

/-- Membership in the first-seen deduplication. -/
theorem mem_firstSeenAux (us : List (List Char)) :
    ∀ (seen : List (List Char)) (x : List Char),
      x ∈ firstSeenAux us seen ↔ (x ∈ us ∧ x ∉ seen) := by
  induction us with
  | nil => intro seen x; simp [firstSeenAux]
  | cons u us ih =>
    intro seen x
    by_cases h : u ∈ seen
    · rw [firstSeenAux, if_pos h, ih]
      constructor
      · rintro ⟨h1, h2⟩
        exact ⟨List.mem_cons_of_mem _ h1, h2⟩
      · rintro ⟨h1, h2⟩
        rcases List.mem_cons.mp h1 with rfl | h1
        · exact absurd h h2
        · exact ⟨h1, h2⟩
    · rw [firstSeenAux, if_neg h]
      constructor
      · intro hx
        rcases List.mem_cons.mp hx with rfl | hx
        · exact ⟨List.mem_cons_self _ _, h⟩
        · obtain ⟨h1, h2⟩ := (ih _ _).mp hx
          refine ⟨List.mem_cons_of_mem _ h1, ?_⟩
          intro hc
          exact h2 (List.mem_cons_of_mem _ hc)
      · rintro ⟨h1, h2⟩
        rcases List.mem_cons.mp h1 with rfl | h1
        · exact List.mem_cons_self _ _
        · by_cases hxu : x = u
          · subst hxu
            exact List.mem_cons_self _ _
          · refine List.mem_cons_of_mem _ ((ih _ _).mpr ⟨h1, ?_⟩)
            intro hc
            rcases List.mem_cons.mp hc with h3 | h3
            · exact hxu h3
            · exact h2 h3

/-- The first-seen deduplication has no duplicates. -/
theorem nodup_firstSeenAux (us : List (List Char)) :
    ∀ seen : List (List Char), (firstSeenAux us seen).Nodup := by
  induction us with
  | nil => intro seen; simp [firstSeenAux]
  | cons u us ih =>
    intro seen
    by_cases h : u ∈ seen
    · rw [firstSeenAux, if_pos h]
      exact ih seen
    · rw [firstSeenAux, if_neg h]
      refine List.nodup_cons.mpr ⟨?_, ih _⟩
      intro hc
      obtain ⟨-, h2⟩ := (mem_firstSeenAux us _ u).mp hc
      exact h2 (List.mem_cons_self _ _)

/-- C5 counterexample: a single anchor matching the detail pattern but with
empty visible text resolves to one distinct URL, yet the collector returns
no entry, refuting "N matching anchors with M distinct resolved URLs yield
exactly M entries". -/
theorem c5_counterexample :
    ([emptyNameAnchor].filter (fun a => substr mgrPat a.href)).length = 1 ∧
    (firstSeen (([emptyNameAnchor].filter (fun a => substr mgrPat a.href)).map
      (fun a => resolveUrl a.href))).length = 1 ∧
    (get_manager_links [emptyNameAnchor]).length = 0 := by
  decide

/-- C5 amended: among the anchors matching the detail pattern that carry a
non-empty href and non-empty stripped text, the collector returns their
resolved URLs deduplicated in first-seen order — exactly one entry per
distinct resolved URL. -/
theorem c5_dedup_first_seen (anchors : List Anchor) :
    (get_manager_links anchors).map ManagerRef.url = firstSeen (candidateUrls anchors) ∧
    (get_manager_links anchors).length = (candidateUrls anchors).toFinset.card := by
  have h1 : (get_manager_links anchors).map ManagerRef.url
      = firstSeen (candidateUrls anchors) := by
    unfold get_manager_links firstSeen
    rw [dedupRefs_map_url, rawManagers_map_url]
  refine ⟨h1, ?_⟩
  have h2 : (get_manager_links anchors).length
      = (firstSeen (candidateUrls anchors)).length := by
    rw [← h1, List.length_map]
  have h3 : (firstSeen (candidateUrls anchors)).toFinset
      = (candidateUrls anchors).toFinset := by
    ext x
    simp only [List.mem_toFinset, firstSeen, mem_firstSeenAux]
    simp
  have h4 : (firstSeen (candidateUrls anchors)).Nodup := nodup_firstSeenAux _ _
  rw [h2, ← h3]
  exact (List.toFinset_card_of_nodup h4).symm

/-- C4 counterexample: in a world with exactly one discovered entity whose
detail fetch fails, the run finishes with a skipped count of 0 — the failed
entity is not recorded as skipped. -/
theorem c4_counterexample :
    get_manager_links idxPageOneMgr.anchors = [⟨str "Alpha", demoDetailUrl⟩] ∧
    fetchFailWorld demoDetailUrl = none ∧
    mainRun fetchFailWorld (fun _ => 0) = ⟨RunResult.finished ⟨0, 0, 0⟩ none, 0⟩ := by
  decide

/-- C4 corrected: a failed per-entity fetch never aborts the loop — the
entity is passed over with records and counters unchanged and the loop
continues with the remaining entities — but such an entity is not counted
as skipped: the skipped count (and the qualifying count) only count
entities whose pages were fetched. -/
theorem c4_fetch_failure_behavior :
    (∀ (fetch : List Char → Option Page) (delays : Nat → Nat) (s : LoopState)
      (m : ManagerRef) (ms : List ManagerRef), fetch m.url = none →
      runLoop fetch delays s (m :: ms) =
        runLoop fetch delays
          { s with elapsed := s.elapsed + delays s.tick, tick := s.tick + 1 } ms) ∧
    (∀ (fetch : List Char → Option Page) (delays : Nat → Nat) (s : LoopState)
      (ms : List ManagerRef),
      (runLoop fetch delays s ms).skipCount =
        s.skipCount + ms.countP (fun m =>
          match fetch m.url with
          | some page => !is_q4_2025 page.text
          | none => false)) ∧
    (∀ (fetch : List Char → Option Page) (delays : Nat → Nat) (s : LoopState)
      (ms : List ManagerRef),
      (runLoop fetch delays s ms).q4Count =
        s.q4Count + ms.countP (fun m =>
          match fetch m.url with
          | some page => is_q4_2025 page.text
          | none => false)) := by
  refine ⟨?_, ?_, ?_⟩
  · intro fetch delays s m ms h
    have e : stepEntity fetch delays s m
        = { s with elapsed := s.elapsed + delays s.tick, tick := s.tick + 1 } := by
      unfold stepEntity
      rw [h]
    rw [runLoop, e]
  · intro fetch delays s ms
    induction ms generalizing s with
    | nil => simp [runLoop]
    | cons m ms ih =>
      rw [runLoop, ih, List.countP_cons]
      cases hf : fetch m.url with
      | none => simp [stepEntity, hf]
      | some page =>
        cases hq : is_q4_2025 page.text <;> (simp [stepEntity, hf, hq]; try omega)
  · intro fetch delays s ms
    induction ms generalizing s with
    | nil => simp [runLoop]
    | cons m ms ih =>
      rw [runLoop, ih, List.countP_cons]
      cases hf : fetch m.url with
      | none => simp [stepEntity, hf]
      | some page =>
        cases hq : is_q4_2025 page.text <;> (simp [stepEntity, hf, hq]; try omega)

/-- One loop step yields equal records and counters from equal records and
counters, for any two delay streams. -/
theorem stepEntity_proj (fetch : List Char → Option Page) (d1 d2 : Nat → Nat)
    (s1 s2 : LoopState) (m : ManagerRef)
    (h1 : s1.records = s2.records) (h2 : s1.q4Count = s2.q4Count)
    (h3 : s1.skipCount = s2.skipCount) :
    (stepEntity fetch d1 s1 m).records = (stepEntity fetch d2 s2 m).records ∧
    (stepEntity fetch d1 s1 m).q4Count = (stepEntity fetch d2 s2 m).q4Count ∧
    (stepEntity fetch d1 s1 m).skipCount = (stepEntity fetch d2 s2 m).skipCount := by
  unfold stepEntity
  cases hf : fetch m.url with
  | none => exact ⟨h1, h2, h3⟩
  | some page =>
    by_cases hq : is_q4_2025 page.text = true
    · simp only [hq, if_true]
      exact ⟨by simp [h1], by simp [h2], h3⟩
    · simp only [hq, if_false]
      exact ⟨h1, h2, by simp [h3]⟩

/-- The loop's records and counters do not depend on the delay stream. -/
theorem runLoop_proj (ms : List ManagerRef) :
    ∀ (fetch : List Char → Option Page) (d1 d2 : Nat → Nat) (s1 s2 : LoopState),
      s1.records = s2.records → s1.q4Count = s2.q4Count → s1.skipCount = s2.skipCount →
      (runLoop fetch d1 s1 ms).records = (runLoop fetch d2 s2 ms).records ∧
      (runLoop fetch d1 s1 ms).q4Count = (runLoop fetch d2 s2 ms).q4Count ∧
      (runLoop fetch d1 s1 ms).skipCount = (runLoop fetch d2 s2 ms).skipCount := by
  induction ms with
  | nil => intro fetch d1 d2 s1 s2 h1 h2 h3; exact ⟨h1, h2, h3⟩
  | cons m ms ih =>
    intro fetch d1 d2 s1 s2 h1 h2 h3
    rw [runLoop, runLoop]
    obtain ⟨e1, e2, e3⟩ := stepEntity_proj fetch d1 d2 s1 s2 m h1 h2 h3
    exact ih fetch d1 d2 _ _ e1 e2 e3

/-- C9: the run result (summary counts, record sequence, export) is a
deterministic function of the fetched page contents; the random delay
stream affects only the elapsed time, never the result. -/
theorem c9_determinism (fetch : List Char → Option Page) (d1 d2 : Nat → Nat) :
    (mainRun fetch d1).result = (mainRun fetch d2).result := by
  unfold mainRun
  cases hp : fetch MANAGERS_URL with
  | none => rfl
  | some p =>
    dsimp only
    by_cases hm : (get_manager_links p.anchors).isEmpty = true
    · rw [if_pos hm, if_pos hm]
    · rw [if_neg hm, if_neg hm]
      obtain ⟨e1, e2, e3⟩ := runLoop_proj (get_manager_links p.anchors) fetch d1 d2
        ⟨[], 0, 0, 0, 0⟩ ⟨[], 0, 0, 0, 0⟩ rfl rfl rfl
      dsimp only
      rw [e1, e2, e3]

/-- C7: once the index stage succeeds, the run finishes with a summary; the
export exists iff the accumulated record count is non-zero, and when it
exists it is a single file with the fixed sheet name and the fixed column
order Manager, Stock, Ticker, Recent Activity, Portfolio %, Reported Price,
holding exactly the accumulated records. -/
theorem c7_export_iff_nonempty (fetch : List Char → Option Page) (delays : Nat → Nat)
    (p : Page) (hp : fetch MANAGERS_URL = some p)
    (hm : (get_manager_links p.anchors).isEmpty = false) :
    ∃ s out, (mainRun fetch delays).result = RunResult.finished s out ∧
      (out.isSome = true ↔ s.totalRecords ≠ 0) ∧
      (∀ f, out = some f → f.sheetName = str "Q4 2025 Buys" ∧
        f.columns = fixedColumnOrder ∧ f.rows.length = s.totalRecords) := by
  have hcols : exportColumns = fixedColumnOrder := by decide
  unfold mainRun
  rw [hp]
  dsimp only
  rw [if_neg (by simp [hm])]
  by_cases hrec :
      (runLoop fetch delays ⟨[], 0, 0, 0, 0⟩ (get_manager_links p.anchors)).records.isEmpty = true
  · rw [if_pos hrec]
    have hlen :
        (runLoop fetch delays ⟨[], 0, 0, 0, 0⟩ (get_manager_links p.anchors)).records.length = 0 := by
      rw [List.length_eq_zero]
      exact List.isEmpty_iff.mp hrec
    refine ⟨_, none, rfl, ?_, ?_⟩
    · simp [hlen]
    · intro f hf
      exact absurd hf (by simp)
  · rw [if_neg hrec]
    have hne :
        (runLoop fetch delays ⟨[], 0, 0, 0, 0⟩ (get_manager_links p.anchors)).records ≠ [] := by
      intro e
      rw [← List.isEmpty_iff] at e
      exact hrec e
    refine ⟨_, _, rfl, ?_, ?_⟩
    · simp only [Option.isSome_some, true_iff]
      intro e
      rw [List.length_eq_zero] at e
      exact hne e
    · intro f hf
      rw [← Option.some.inj hf]
      exact ⟨rfl, hcols, rfl⟩

/-- Witness for C1 at the example table, a Sell row and a mixed-case Add
row. -/
theorem c1_witness :
    (substr (str "buy") (demoRecord.recentActivity.map pyLower) ||
      substr (str "add") (demoRecord.recentActivity.map pyLower)) = true ∧
    processRow demoColMap (str "M") sellRow = none ∧
    (processRow demoColMap (str "M") addRow).isSome = true :=
  ⟨c1_activity_filter.1 demoPage (str "Value Fund") demoRecord (by decide),
   c1_activity_filter.2.1 demoColMap (str "M") sellRow (by decide),
   c1_activity_filter.2.2 demoColMap (str "M") addRow (by decide) (by decide)⟩

/-- Witness for C2 at concrete page texts. -/
theorem c2_witness :
    is_q4_2025 (str "xx " ++ str "Q4 2025" ++ str " yy") = true ∧
    is_q4_2025 ([] ++ str "12/31/2025" ++ []) = true :=
  ⟨c2_period_patterns.1 (str "xx ") (str " yy"),
   c2_period_patterns.2.2.2.1 [] []⟩

/-- Witness for C4 at the one-failing-entity world. -/
theorem c4_witness :
    runLoop fetchFailWorld (fun _ => 0) ⟨[], 0, 0, 0, 0⟩ [⟨str "Alpha", demoDetailUrl⟩] =
      runLoop fetchFailWorld (fun _ => 0)
        { records := ([] : List HoldingRecord), q4Count := 0, skipCount := 0,
          elapsed := 0 + (fun _ : Nat => 0) 0, tick := 0 + 1 } [] ∧
    (runLoop fetchFailWorld (fun _ => 0) ⟨[], 0, 0, 0, 0⟩
        [⟨str "Alpha", demoDetailUrl⟩]).skipCount =
      (⟨[], 0, 0, 0, 0⟩ : LoopState).skipCount + List.countP (fun (m : ManagerRef) =>
        match fetchFailWorld m.url with
        | some page => !is_q4_2025 page.text
        | none => false) [⟨str "Alpha", demoDetailUrl⟩] :=
  ⟨c4_fetch_failure_behavior.1 fetchFailWorld (fun _ => 0) ⟨[], 0, 0, 0, 0⟩
      ⟨str "Alpha", demoDetailUrl⟩ [] (by decide),
   c4_fetch_failure_behavior.2.1 fetchFailWorld (fun _ => 0) ⟨[], 0, 0, 0, 0⟩
      [⟨str "Alpha", demoDetailUrl⟩]⟩

/-- Witness for C5 at a listing with a duplicated link and an empty-text-free
anchor set. -/
theorem c5_witness :
    (get_manager_links demoAnchors).map ManagerRef.url = firstSeen (candidateUrls demoAnchors) ∧
    (get_manager_links demoAnchors).length = (candidateUrls demoAnchors).toFinset.card :=
  c5_dedup_first_seen demoAnchors

/-- Witness for C6 at concrete headers. -/
theorem c6_witness :
    (∃ h, [str "our price"][0]? = some h ∧
      (substr (str "reported") h || substr (str "price") h) = true) ∧
    (mkColMap ([str "price"] ++ [str "reported price"])).price = some [str "price"].length ∧
    (mkColMap ([str "price"] ++ [str "stock"])).price = (mkColMap [str "price"]).price :=
  ⟨c6_price_mapping.1 [str "our price"] 0 (by decide),
   c6_price_mapping.2.1 [str "price"] (str "reported price") (by decide),
   c6_price_mapping.2.2 [str "price"] (str "stock") (by decide) (by decide)⟩

/-- Witness for C7 at the one-qualifying-entity world. -/
theorem c7_witness :
    ∃ s out, (mainRun fetchGoodWorld (fun _ => 0)).result = RunResult.finished s out ∧
      (out.isSome = true ↔ s.totalRecords ≠ 0) ∧
      (∀ f, out = some f → f.sheetName = str "Q4 2025 Buys" ∧
        f.columns = fixedColumnOrder ∧ f.rows.length = s.totalRecords) :=
  c7_export_iff_nonempty fetchGoodWorld (fun _ => 0) idxPageOneMgr (by decide) (by decide)

/-- Witness for C8 at a two-cell row inside the example table. -/
theorem c8_witness :
    processRow demoColMap (str "M") shortRow = none ∧
    parseHoldingsTable (demoHeaderRow :: ([] ++ shortRow :: [demoDataRow])) (str "M") =
      parseHoldingsTable (demoHeaderRow :: ([] ++ [demoDataRow])) (str "M") ∧
    (parseHoldingsTable (demoHeaderRow :: [demoDataRow]) (str "M")).length ≤
      [demoDataRow].length :=
  ⟨c8_short_row_skipped.1 demoColMap (str "M") shortRow (by decide),
   c8_short_row_skipped.2.1 demoHeaderRow shortRow [] [demoDataRow] (str "M") (by decide),
   c8_short_row_skipped.2.2 demoHeaderRow [demoDataRow] (str "M")⟩

/-- Witness for C9 at the one-qualifying-entity world with two different
delay streams. -/
theorem c9_witness :
    (mainRun fetchGoodWorld (fun _ => 1)).result =
      (mainRun fetchGoodWorld (fun _ => 2)).result :=
  c9_determinism fetchGoodWorld (fun _ => 1) (fun _ => 2)

/-- Witness for C10 at the example table's record. -/
theorem c10_witness : demoRecord.ticker.all tickerChar = true :=
  c10_ticker_charset demoPage (str "Value Fund") demoRecord (by decide)

end Dataroma
